import Mathlib

/-!
Verification of the bus-servo serial controller (`busSweial.py`).

Strings are embedded as `List Char`; Python's string operations used by the
source (`split`, `strip`, `upper`, `startswith`, `endswith`, slicing, `int()`
and zero-padded decimal formatting) are given explicit models below, and the
four behaviours of `BusServoController` that carry logic —
`send_servo_move`, `send_passthrough`, `parse_segment`, `process_command` —
are translated directly.  Serial I/O is abstracted: a move returns the frame
it writes, and passthrough returns the validation result together with the
list of transport events it performs.
-/

namespace BusServo

/-- Constant `PULSE_MIN_US = 500` (source line 16). -/
def PULSE_MIN_US : Int := 500

/-- Constant `PULSE_MAX_US = 2500` (source line 17). -/
def PULSE_MAX_US : Int := 2500

/-- Initial value of the global `default_time_ms` (source line 20). -/
def default_time_ms_init : Int := 1000

/-- Model of Python's `str.strip()`: remove leading and trailing whitespace. -/
def pyStrip (s : List Char) : List Char :=
  ((s.dropWhile Char.isWhitespace).reverse.dropWhile Char.isWhitespace).reverse

/-- Model of Python's `str.upper()` (ASCII case mapping, as used here). -/
def pyUpper (s : List Char) : List Char := s.map Char.toUpper

/-- Accumulating decimal reader: fails on the first non-digit character. -/
def readDigits (acc : Nat) : List Char → Option Nat
  | [] => some acc
  | c :: cs => if c.isDigit then readDigits (acc * 10 + (c.toNat - 48)) cs else none

/-- Model of Python's `int(str)`: strip whitespace, optional sign, then a
nonempty run of decimal digits; anything else raises `ValueError` (`none`). -/
def pyInt (s : List Char) : Option Int :=
  match pyStrip s with
  | [] => none
  | c :: rest =>
    if c = '-' then
      if rest = [] then none else (readDigits 0 rest).map (fun n => -(n : Int))
    else if c = '+' then
      if rest = [] then none else (readDigits 0 rest).map (fun n => (n : Int))
    else
      (readDigits 0 (c :: rest)).map (fun n => (n : Int))

/-- Decimal digits of `n`, most significant first (`[]` for `0`); the fuel
argument makes the recursion structural. -/
def natDecAux : Nat → Nat → List Char
  | 0, _ => []
  | fuel + 1, n =>
    if n = 0 then [] else natDecAux fuel (n / 10) ++ [Nat.digitChar (n % 10)]

/-- Decimal rendering of a natural number, as Python's `str`/`repr`. -/
def natDec (n : Nat) : List Char :=
  if n = 0 then ['0'] else natDecAux n n

/-- Model of Python's `f"{v:0wd}"`: decimal rendering zero-padded on the left
to total width `w` (the sign, if any, counts towards the width and precedes
the padding). -/
def pyFormat0d (w : Nat) (v : Int) : List Char :=
  if v < 0 then
    '-' :: (List.replicate (w - 1 - (natDec v.natAbs).length) '0' ++ natDec v.natAbs)
  else
    List.replicate (w - (natDec v.natAbs).length) '0' ++ natDec v.natAbs

/-- Model of Python's single-character `str.split(sep)`. -/
def splitOnChar (sep : Char) : List Char → List (List Char)
  | [] => [[]]
  | c :: cs =>
    if c = sep then [] :: splitOnChar sep cs
    else
      match splitOnChar sep cs with
      | [] => [[c]]
      | g :: gs => (c :: g) :: gs

/-- Function `send_servo_move` (source lines 43–62): clamp the three parameters —
`pulse_us = max(PULSE_MIN_US, min(PULSE_MAX_US, pulse_us))`,
`time_ms = max(1, time_ms)`, `servo_id = min(999, servo_id)` — then format
the frame `f"#{servo_id:03d}P{pulse_us:04d}T{time_ms:04d}!"`.  The frame is
both written to the serial port and returned; we return it. -/
def send_servo_move (servo_id pulse_us time_ms : Int) : List Char :=
  let pulse_us := max PULSE_MIN_US (min PULSE_MAX_US pulse_us)
  let time_ms := max 1 time_ms
  let servo_id := min 999 servo_id
  '#' :: pyFormat0d 3 servo_id ++ 'P' :: pyFormat0d 4 pulse_us ++
    'T' :: pyFormat0d 4 time_ms ++ ['!']

/-- The error string returned by `send_passthrough` on invalid input
(source line 71). -/
def invalid_cmd_msg : List Char :=
  "Invalid C# command (must start with C# and end with !)".data

/-- Validation and payload extraction of `send_passthrough` (source lines
70–74): the input must, after `upper()`, start with `C#` and must end with
`!`; the payload is `command[1:]` (the leading `C` dropped). -/
def strip_passthrough (command : List Char) : Except (List Char) (List Char) :=
  if !(['C', '#'].isPrefixOf (pyUpper command)) || !(['!'].isSuffixOf command) then
    Except.error invalid_cmd_msg
  else
    Except.ok command.tail

/-- Transport-level actions performed by `send_passthrough`. -/
inductive IOEvent where
  | write (payload : List Char)
  | sleepSettle
  | drainRead
  deriving DecidableEq, Repr

/-- Function `send_passthrough` (source lines 64–83): on invalid input return the
error immediately (no transport action); otherwise write the payload, sleep
the settle delay, and drain the reply.  The device reply itself is external;
we record the event trace. -/
def send_passthrough (command : List Char) :
    Except (List Char) (List Char) × List IOEvent :=
  match strip_passthrough command with
  | Except.error e => (Except.error e, [])
  | Except.ok payload =>
    (Except.ok payload, [IOEvent.write payload, IOEvent.sleepSettle, IOEvent.drainRead])

/-- Body of `parse_segment` (source lines 85–105) after the split: need at
least two parts; `int()` the id and pulse, and the time when a third part is
present, else use the session default; reject (`None`) when any `int()`
fails or when `servo_id < 0 or servo_id > 999 or pulse <= 0 or time_ms <= 0`. -/
def parse_parts (default_time_ms : Int) (parts : List (List Char)) :
    Option (Int × Int × Int) :=
  match parts with
  | p0 :: p1 :: rest =>
    match pyInt p0, pyInt p1,
        (match rest with | [] => some default_time_ms | p2 :: _ => pyInt p2) with
    | some servo_id, some pulse, some time_ms =>
      if servo_id < 0 ∨ 999 < servo_id ∨ pulse ≤ 0 ∨ time_ms ≤ 0 then none
      else some (servo_id, pulse, time_ms)
    | _, _, _ => none
  | _ => none

/-- The `parts = segment.split(',')` step that opens `parse_segment`. -/
def parse_segment (default_time_ms : Int) (segment : List Char) :
    Option (Int × Int × Int) :=
  parse_parts default_time_ms (splitOnChar ',' segment)

deriving instance DecidableEq for Except

/-- One line of printed output of `process_command`, per branch taken. -/
inductive Output where
  | passthrough (r : Except (List Char) (List Char))
  | setDefault (v : Int)
  | invalidCt
  | sent (frame : List Char)
  | skipped (segment : List Char)
  deriving DecidableEq, Repr

/-- The segment loop of `process_command` (source lines 138–150): for each
`;`-separated segment, strip it, silently skip it when empty, otherwise
either send the move (`send_servo_move`) or report it as invalid. -/
def processSegments (d : Int) : List (List Char) → List Output
  | [] => []
  | s :: rest =>
    let s' := pyStrip s
    if s' = [] then processSegments d rest
    else
      match parse_segment d s' with
      | some (servo_id, pulse, time_ms) =>
        Output.sent (send_servo_move servo_id pulse time_ms) :: processSegments d rest
      | none => Output.skipped s' :: processSegments d rest

/-- Function `process_command` (source lines 107–150), with the global
`default_time_ms` made explicit: returns the new default together with the
outputs.  Branch order as in the source: strip; empty → nothing; `C#` prefix
(case-insensitive) → passthrough; literal `ct` prefix → set default from
`int(line[2:])` if positive, else diagnostic; otherwise the segment loop. -/
def process_command (default_time_ms : Int) (line : List Char) :
    Int × List Output :=
  let line := pyStrip line
  if line = [] then (default_time_ms, [])
  else if ['C', '#'].isPrefixOf (pyUpper line) then
    (default_time_ms, [Output.passthrough (strip_passthrough line)])
  else if ['c', 't'].isPrefixOf line then
    match pyInt (line.drop 2) with
    | some new_time =>
      if new_time > 0 then (new_time, [Output.setDefault new_time])
      else (default_time_ms, [Output.invalidCt])
    | none => (default_time_ms, [Output.invalidCt])
  else
    (default_time_ms, processSegments default_time_ms (splitOnChar ';' line))

/-! ### Decimal rendering and reparsing -/

lemma readDigits_append (xs : List Char) : ∀ (a : Nat) (ys : List Char),
    readDigits a (xs ++ ys) = (readDigits a xs).bind (fun b => readDigits b ys) := by
  induction xs with
  | nil => intro a ys; rfl
  | cons c cs ih =>
    intro a ys
    simp only [List.cons_append, readDigits]
    by_cases hc : c.isDigit
    · simp [hc, ih]
    · simp [hc]

lemma digitChar_isDigit {d : Nat} (h : d < 10) : (Nat.digitChar d).isDigit = true := by
  interval_cases d <;> decide

lemma digitChar_val {d : Nat} (h : d < 10) : (Nat.digitChar d).toNat - 48 = d := by
  interval_cases d <;> decide

lemma natDecAux_all_digits : ∀ (fuel n : Nat), ∀ c ∈ natDecAux fuel n, c.isDigit = true := by
  intro fuel
  induction fuel with
  | zero => intro n c hc; simp [natDecAux] at hc
  | succ f ih =>
    intro n c hc
    by_cases hn : n = 0
    · simp [natDecAux, hn] at hc
    · simp only [natDecAux, hn, if_false, List.mem_append, List.mem_singleton] at hc
      rcases hc with hc | rfl
      · exact ih _ c hc
      · exact digitChar_isDigit (Nat.mod_lt _ (by norm_num))

lemma natDecAux_readDigits : ∀ (fuel n : Nat), n ≤ fuel → ∀ a : Nat,
    readDigits a (natDecAux fuel n) = some (a * 10 ^ (natDecAux fuel n).length + n) := by
  intro fuel
  induction fuel with
  | zero =>
    intro n hn a
    interval_cases n
    simp [natDecAux, readDigits]
  | succ f ih =>
    intro n hn a
    by_cases h0 : n = 0
    · subst h0; simp [natDecAux, readDigits]
    · have hdiv : n / 10 ≤ f := by
        have := Nat.div_lt_self (Nat.pos_of_ne_zero h0) (by norm_num : 1 < 10)
        omega
      have hmod : n % 10 < 10 := Nat.mod_lt _ (by norm_num)
      simp only [natDecAux, h0, if_false]
      rw [readDigits_append, ih _ hdiv a]
      simp only [Option.some_bind, readDigits, digitChar_isDigit hmod, if_true,
        digitChar_val hmod, List.length_append, List.length_singleton]
      have hdm : 10 * (n / 10) + n % 10 = n := Nat.div_add_mod n 10
      rw [pow_succ]
      congr 1
      generalize (10 : Nat) ^ (natDecAux f (n / 10)).length = M
      calc (a * M + n / 10) * 10 + n % 10
          = a * (M * 10) + (10 * (n / 10) + n % 10) := by ring
        _ = a * (M * 10) + n := by rw [hdm]

lemma natDecAux_length_le : ∀ (fuel n w : Nat), n ≤ fuel → n < 10 ^ w →
    (natDecAux fuel n).length ≤ w := by
  intro fuel
  induction fuel with
  | zero => intro n w hn _; interval_cases n; simp [natDecAux]
  | succ f ih =>
    intro n w hn hw
    by_cases h0 : n = 0
    · subst h0; simp [natDecAux]
    · rcases w with _ | w'
      · exfalso; simp at hw; omega
      · have hdiv : n / 10 ≤ f := by
          have := Nat.div_lt_self (Nat.pos_of_ne_zero h0) (by norm_num : 1 < 10)
          omega
        have hdivw : n / 10 < 10 ^ w' := by
          rw [pow_succ'] at hw
          exact Nat.div_lt_of_lt_mul hw
        simp only [natDecAux, h0, if_false, List.length_append, List.length_singleton]
        have := ih (n / 10) w' hdiv hdivw
        omega

lemma natDec_readDigits (n : Nat) : readDigits 0 (natDec n) = some n := by
  by_cases h0 : n = 0
  · subst h0; simp [natDec, readDigits]
  · simp only [natDec, h0, if_false]
    rw [natDecAux_readDigits n n le_rfl 0]
    simp

lemma natDec_all_digits (n : Nat) : ∀ c ∈ natDec n, c.isDigit = true := by
  by_cases h0 : n = 0
  · subst h0; intro c hc; simp [natDec] at hc; subst hc; decide
  · simp only [natDec, h0, if_false]
    exact natDecAux_all_digits n n

lemma natDec_ne_nil (n : Nat) : natDec n ≠ [] := by
  by_cases h0 : n = 0
  · subst h0; simp [natDec]
  · simp only [natDec, h0, if_false]
    rcases n with _ | m
    · exact absurd rfl h0
    · simp [natDecAux, h0]

lemma natDec_length_le {n w : Nat} (hw : n < 10 ^ w) (hpos : 0 < w) :
    (natDec n).length ≤ w := by
  by_cases h0 : n = 0
  · subst h0; simpa [natDec] using hpos
  · simp only [natDec, h0, if_false]
    exact natDecAux_length_le n n w le_rfl hw

/-! ### Character classes and whitespace stripping -/

lemma isWhitespace_eq_false_of_isDigit {c : Char} (h : c.isDigit = true) :
    c.isWhitespace = false := by
  rcases hw : c.isWhitespace with _ | _
  · rfl
  · exfalso
    have hmem : c = ' ' ∨ c = '\t' ∨ c = '\r' ∨ c = '\n' := by
      simpa [Char.isWhitespace, or_assoc] using hw
    rcases hmem with rfl | rfl | rfl | rfl <;> exact absurd h (by decide)

lemma ne_sign_of_isDigit {c : Char} (h : c.isDigit = true) :
    c ≠ '-' ∧ c ≠ '+' := by
  constructor <;> rintro rfl <;> exact absurd h (by decide)

lemma dropWhile_ws_eq_self {cs : List Char}
    (h : ∀ c ∈ cs, c.isWhitespace = false) :
    cs.dropWhile Char.isWhitespace = cs := by
  cases cs with
  | nil => rfl
  | cons c rest =>
    rw [List.dropWhile_cons, if_neg]
    simp [h c (List.mem_cons_self c rest)]

lemma pyStrip_eq_self {cs : List Char}
    (h : ∀ c ∈ cs, c.isWhitespace = false) :
    pyStrip cs = cs := by
  unfold pyStrip
  rw [dropWhile_ws_eq_self h, dropWhile_ws_eq_self (by simpa using h),
    List.reverse_reverse]

lemma pyInt_of_digits {cs : List Char} (hne : cs ≠ [])
    (h : ∀ c ∈ cs, c.isDigit = true) :
    pyInt cs = (readDigits 0 cs).map (fun n => (n : Int)) := by
  have hstrip : pyStrip cs = cs :=
    pyStrip_eq_self (fun c hc => isWhitespace_eq_false_of_isDigit (h c hc))
  cases cs with
  | nil => exact absurd rfl hne
  | cons c rest =>
    have hd := h c (List.mem_cons_self c rest)
    obtain ⟨hm, hp⟩ := ne_sign_of_isDigit hd
    unfold pyInt
    rw [hstrip]
    simp only [hm, hp, if_false]

/-! ### The zero-padded formatter -/

lemma readDigits_zeros_prefix (cs : List Char) : ∀ k : Nat,
    readDigits 0 (List.replicate k '0' ++ cs) = readDigits 0 cs := by
  intro k
  induction k with
  | zero => rfl
  | succ k ih =>
    rw [List.replicate_succ, List.cons_append]
    show readDigits (0 * 10 + ('0'.toNat - 48)) _ = _
    simpa using ih

lemma pyFormat0d_nonneg_eq {v : Int} (h0 : 0 ≤ v) (w : Nat) :
    pyFormat0d w v = List.replicate (w - (natDec v.natAbs).length) '0' ++ natDec v.natAbs := by
  unfold pyFormat0d
  rw [if_neg (by omega)]

lemma pyFormat0d_length {w : Nat} {v : Int} (h0 : 0 ≤ v)
    (hw : v < (10 : Int) ^ w) (hpos : 0 < w) :
    (pyFormat0d w v).length = w := by
  have hn : v.natAbs < 10 ^ w := by
    have : ((v.natAbs : Int)) < (10 : Int) ^ w := by
      rwa [Int.natAbs_of_nonneg h0]
    exact_mod_cast this
  have hlen := natDec_length_le hn hpos
  rw [pyFormat0d_nonneg_eq h0, List.length_append, List.length_replicate]
  omega

lemma pyFormat0d_all_digits {w : Nat} {v : Int} (h0 : 0 ≤ v) :
    ∀ c ∈ pyFormat0d w v, c.isDigit = true := by
  rw [pyFormat0d_nonneg_eq h0]
  intro c hc
  rcases List.mem_append.mp hc with hc | hc
  · have : c = '0' := List.eq_of_mem_replicate hc
    subst this; decide
  · exact natDec_all_digits _ c hc

lemma pyFormat0d_ne_nil {w : Nat} {v : Int} (h0 : 0 ≤ v) :
    pyFormat0d w v ≠ [] := by
  rw [pyFormat0d_nonneg_eq h0]
  intro h
  rcases List.append_eq_nil.mp h with ⟨-, h2⟩
  exact natDec_ne_nil _ h2

/-- Reparsing a zero-padded nonnegative field gives back the value. -/
lemma pyInt_pyFormat0d {w : Nat} {v : Int} (h0 : 0 ≤ v) :
    pyInt (pyFormat0d w v) = some v := by
  rw [pyInt_of_digits (pyFormat0d_ne_nil h0) (pyFormat0d_all_digits h0),
    pyFormat0d_nonneg_eq h0, readDigits_zeros_prefix, natDec_readDigits]
  simp [Int.natAbs_of_nonneg h0]

/-! ### Frame layout -/

lemma exists_list_three {α : Type} {l : List α} (h : l.length = 3) :
    ∃ a b c, l = [a, b, c] := by
  rcases l with _ | ⟨a, _ | ⟨b, _ | ⟨c, _ | ⟨d, t⟩⟩⟩⟩ <;> simp_all

lemma exists_list_four {α : Type} {l : List α} (h : l.length = 4) :
    ∃ a b c d, l = [a, b, c, d] := by
  rcases l with _ | ⟨a, _ | ⟨b, _ | ⟨c, _ | ⟨d, _ | ⟨e, t⟩⟩⟩⟩⟩ <;> simp_all

lemma frame_fields {l3 l4 l5 : List Char} (h3 : l3.length = 3)
    (h4 : l4.length = 4) (h5 : l5.length = 4) :
    ('#' :: l3 ++ 'P' :: l4 ++ 'T' :: l5 ++ ['!']).length = 15 ∧
    (('#' :: l3 ++ 'P' :: l4 ++ 'T' :: l5 ++ ['!']).drop 1).take 3 = l3 ∧
    (('#' :: l3 ++ 'P' :: l4 ++ 'T' :: l5 ++ ['!']).drop 5).take 4 = l4 ∧
    (('#' :: l3 ++ 'P' :: l4 ++ 'T' :: l5 ++ ['!']).drop 10).take 4 = l5 := by
  obtain ⟨a1, a2, a3, rfl⟩ := exists_list_three h3
  obtain ⟨b1, b2, b3, b4, rfl⟩ := exists_list_four h4
  obtain ⟨c1, c2, c3, c4, rfl⟩ := exists_list_four h5
  exact ⟨rfl, rfl, rfl, rfl⟩

lemma send_servo_move_eq (servo_id pulse_us time_ms : Int) :
    send_servo_move servo_id pulse_us time_ms =
      '#' :: pyFormat0d 3 (min 999 servo_id) ++
        'P' :: pyFormat0d 4 (max 500 (min 2500 pulse_us)) ++
        'T' :: pyFormat0d 4 (max 1 time_ms) ++ ['!'] := by
  simp [send_servo_move, PULSE_MIN_US, PULSE_MAX_US]

/-! ### Claims C1 and C2: the frame codec -/

/-- C1, counterexample: the claim asserts that for every `id ∈ [0,999]`,
`pulse ∈ [500,2500]` and `duration ≥ 1` the frame has length exactly 15;
but `send_servo_move` only clamps the duration from below (`max(1, ·)`), so
duration 10000 is formatted as five digits and the frame has 16 characters. -/
theorem c1_counterexample : (send_servo_move 0 1500 10000).length ≠ 15 := by decide

/-- C1, amended: for every `id ∈ [0,999]`, `pulse ∈ [500,2500]` and
`duration ∈ [1,9999]`, the frame produced by `send_servo_move` has length
exactly 15 and re-parsing the three numeric substrings at their fixed
positions (characters 1–3, 5–8, 10–13) as integers reproduces the clamped
id, pulse and duration (which here equal the inputs). -/
theorem c1_frame_roundtrip (id p t : Int) (h1 : 0 ≤ id) (h2 : id ≤ 999)
    (h3 : 500 ≤ p) (h4 : p ≤ 2500) (h5 : 1 ≤ t) (h6 : t ≤ 9999) :
    (send_servo_move id p t).length = 15 ∧
    pyInt (((send_servo_move id p t).drop 1).take 3) = some id ∧
    pyInt (((send_servo_move id p t).drop 5).take 4) = some p ∧
    pyInt (((send_servo_move id p t).drop 10).take 4) = some t := by
  have hmin : min 999 id = id := min_eq_right h2
  have hmaxp : max 500 (min 2500 p) = p := by
    rw [min_eq_right h4]; exact max_eq_right h3
  have hmaxt : max 1 t = t := max_eq_right h5
  have hfr : send_servo_move id p t =
      '#' :: pyFormat0d 3 id ++ 'P' :: pyFormat0d 4 p ++
        'T' :: pyFormat0d 4 t ++ ['!'] := by
    rw [send_servo_move_eq, hmin, hmaxp, hmaxt]
  have hl3 : (pyFormat0d 3 id).length = 3 :=
    pyFormat0d_length h1 (by norm_num; omega) (by norm_num)
  have hl4 : (pyFormat0d 4 p).length = 4 :=
    pyFormat0d_length (by omega) (by norm_num; omega) (by norm_num)
  have hl5 : (pyFormat0d 4 t).length = 4 :=
    pyFormat0d_length (by omega) (by norm_num; omega) (by norm_num)
  obtain ⟨hL, hf3, hf4, hf5⟩ := frame_fields hl3 hl4 hl5
  rw [hfr]
  exact ⟨hL, by rw [hf3]; exact pyInt_pyFormat0d h1,
    by rw [hf4]; exact pyInt_pyFormat0d (by omega),
    by rw [hf5]; exact pyInt_pyFormat0d (by omega)⟩

/-- Witness for C1 (amended) at `id = 0`, `pulse = 1640`, `duration = 1000`. -/
theorem c1_frame_roundtrip_witness :
    (send_servo_move 0 1640 1000).length = 15 ∧
    pyInt (((send_servo_move 0 1640 1000).drop 1).take 3) = some 0 ∧
    pyInt (((send_servo_move 0 1640 1000).drop 5).take 4) = some 1640 ∧
    pyInt (((send_servo_move 0 1640 1000).drop 10).take 4) = some 1000 :=
  c1_frame_roundtrip 0 1640 1000 (by norm_num) (by norm_num) (by norm_num)
    (by norm_num) (by norm_num) (by norm_num)

/-- C2: `send_servo_move` applies exactly the source's bounds before
formatting — pulse above 2500 behaves as 2500, pulse below 500 as 500, id
above 999 as 999, and duration ≤ 0 as 1 — and, being a total function, it
never fails on any integer inputs. -/
theorem c2_clamping (id p t : Int) :
    (2500 < p → send_servo_move id p t = send_servo_move id 2500 t) ∧
    (p < 500 → send_servo_move id p t = send_servo_move id 500 t) ∧
    (999 < id → send_servo_move id p t = send_servo_move 999 p t) ∧
    (t ≤ 0 → send_servo_move id p t = send_servo_move id p 1) := by
  refine ⟨fun h => ?_, fun h => ?_, fun h => ?_, fun h => ?_⟩ <;>
    rw [send_servo_move_eq, send_servo_move_eq]
  · rw [show min 2500 p = min 2500 (2500 : Int) from by
      rw [min_eq_left (by omega), min_self]]
  · rw [show max 500 (min 2500 p) = max 500 (min 2500 (500 : Int)) from by
      rw [min_eq_right (by omega), min_eq_right (by norm_num),
        max_eq_left (by omega), max_self]]
  · rw [show min 999 id = min 999 (999 : Int) from by
      rw [min_eq_left (by omega), min_self]]
  · rw [show max 1 t = max 1 (1 : Int) from by
      rw [max_eq_left (by omega), max_self]]

/-- Witness for C2 at `pulse = 9999 > 2500`. -/
theorem c2_clamping_witness :
    send_servo_move 0 9999 1 = send_servo_move 0 2500 1 :=
  (c2_clamping 0 9999 1).1 (by norm_num)

/-! ### Claim C3: parse-time validation rejects, never clamps -/

/-- C3: `parse_segment` returns `none` when the segment has fewer than two
comma-separated fields; and it returns `some (id, pulse, duration)` exactly
when the first two fields parse as integers `id` and `pulse`, the duration
is the parsed third field when present and the supplied default otherwise,
and `0 ≤ id ≤ 999`, `0 < pulse`, `0 < duration` — the returned values are
the parsed ones unchanged, so out-of-range values are rejected, never
clamped, at this stage. -/
theorem c3_parse_segment (d : Int) (seg : List Char) :
    ((splitOnChar ',' seg).length < 2 → parse_segment d seg = none) ∧
    (∀ i p t : Int, parse_segment d seg = some (i, p, t) ↔
      ∃ p0 p1 rest, splitOnChar ',' seg = p0 :: p1 :: rest ∧
        pyInt p0 = some i ∧ pyInt p1 = some p ∧
        ((rest = [] ∧ t = d) ∨ ∃ p2 r, rest = p2 :: r ∧ pyInt p2 = some t) ∧
        0 ≤ i ∧ i ≤ 999 ∧ 0 < p ∧ 0 < t) := by
  rcases hsp : splitOnChar ',' seg with _ | ⟨p0, _ | ⟨p1, rest⟩⟩
  · refine ⟨fun _ => by simp [parse_segment, hsp, parse_parts], fun i p t => ?_⟩
    simp [parse_segment, hsp, parse_parts]
  · refine ⟨fun _ => by simp [parse_segment, hsp, parse_parts], fun i p t => ?_⟩
    simp [parse_segment, hsp, parse_parts]
  · constructor
    · intro hlt
      simp only [List.length_cons] at hlt
      omega
    · intro i p t
      constructor
      · intro h
        have h' : parse_parts d (p0 :: p1 :: rest) = some (i, p, t) := by
          rw [← hsp]; exact h
        rcases hp0 : pyInt p0 with _ | i0 <;>
          rcases hp1 : pyInt p1 with _ | pv <;>
            rcases ht : (match rest with
              | [] => some d | p2 :: _ => pyInt p2) with _ | tv <;>
          simp only [parse_parts, hp0, hp1, ht] at h' <;>
          try exact Option.noConfusion h'
        split at h'
        · exact absurd h' (by simp)
        · rename_i hrange
          push_neg at hrange
          obtain ⟨hr1, hr2, hr3, hr4⟩ := hrange
          obtain ⟨rfl, rfl, rfl⟩ : i0 = i ∧ pv = p ∧ tv = t := by
            simpa using h'
          refine ⟨p0, p1, rest, rfl, hp0, hp1, ?_, by omega, by omega, by omega, by omega⟩
          rcases rest with _ | ⟨p2, r⟩
          · left
            exact ⟨rfl, by simpa using ht.symm⟩
          · right
            exact ⟨p2, r, rfl, ht⟩
      · rintro ⟨p0', p1', rest', heq, hp0, hp1, htime, hi0, hi1, hp, ht⟩
        have hsp' : splitOnChar ',' seg = p0' :: p1' :: rest' := hsp.trans heq
        show parse_parts d (splitOnChar ',' seg) = some (i, p, t)
        rw [hsp']
        rcases htime with ⟨hrest, htd⟩ | ⟨p2, r, hrest, hp2⟩
        · subst hrest; subst htd
          simp only [parse_parts, hp0, hp1]
          rw [if_neg (by omega)]
        · subst hrest
          simp only [parse_parts, hp0, hp1, hp2]
          rw [if_neg (by omega)]

/-- Witness for C3 on the spec's examples: a one-field segment is rejected,
and a duration-0 segment is rejected while the two-field form picks up the
default. -/
theorem c3_parse_segment_witness :
    parse_segment 1000 ("0".data) = none ∧
    parse_segment 1000 ("0,1640".data) = some (0, 1640, 1000) := by
  constructor
  · exact (c3_parse_segment 1000 ("0".data)).1 (by decide)
  · exact ((c3_parse_segment 1000 ("0,1640".data)).2 0 1640 1000).mpr
      ⟨"0".data, "1640".data, [], by decide, by decide, by decide,
        Or.inl ⟨rfl, rfl⟩, by decide, by decide, by decide, by decide⟩

/-! ### Case-insensitive prefix test -/

lemma toUpper_eq_C_iff (c : Char) : c.toUpper = 'C' ↔ c = 'c' ∨ c = 'C' := by
  constructor
  · intro h
    by_cases hr : 97 ≤ c.toNat ∧ c.toNat ≤ 122
    · have hc : c = Char.ofNat c.toNat := (Char.ofNat_toNat c).symm
      obtain ⟨h1, h2⟩ := hr
      rw [hc] at h ⊢
      set n := c.toNat with hn
      clear_value n
      interval_cases n <;> revert h <;> decide
    · have hid : c.toUpper = c := by
        unfold Char.toUpper
        rw [if_neg hr]
      rw [hid] at h
      exact Or.inr h
  · rintro (rfl | rfl) <;> decide

lemma toUpper_eq_hash_iff (c : Char) : c.toUpper = '#' ↔ c = '#' := by
  constructor
  · intro h
    by_cases hr : 97 ≤ c.toNat ∧ c.toNat ≤ 122
    · have hc : c = Char.ofNat c.toNat := (Char.ofNat_toNat c).symm
      obtain ⟨h1, h2⟩ := hr
      rw [hc] at h ⊢
      set n := c.toNat with hn
      clear_value n
      interval_cases n <;> revert h <;> decide
    · have hid : c.toUpper = c := by
        unfold Char.toUpper
        rw [if_neg hr]
      rw [hid] at h
      exact h
  · rintro rfl; decide

/-- A case-insensitive test for the two-character prefix `C#`, written from
the spec's words: the first character is `c` or `C` and the second is `#`. -/
def csPrefixCI (s : List Char) : Bool :=
  match s with
  | a :: b :: _ => (a = 'c' || a = 'C') && b = '#'
  | _ => false

/-- The source's test `line.upper().startswith('C#')` agrees with the
spec-level case-insensitive prefix test. -/
lemma upper_startswith_iff (s : List Char) :
    ['C', '#'].isPrefixOf (pyUpper s) = true ↔ csPrefixCI s = true := by
  match s with
  | [] => simp [pyUpper, csPrefixCI, List.isPrefixOf]
  | [a] => simp [pyUpper, csPrefixCI, List.isPrefixOf]
  | a :: b :: t =>
    show (('C' == a.toUpper) && (('#' == b.toUpper) && List.isPrefixOf [] (pyUpper t))) = true ↔ _
    simp only [List.isPrefixOf, Bool.and_true, Bool.and_eq_true, beq_iff_eq, csPrefixCI,
      Bool.or_eq_true, decide_eq_true_eq]
    constructor
    · rintro ⟨h1, h2⟩
      exact ⟨(toUpper_eq_C_iff a).mp h1.symm, (toUpper_eq_hash_iff b).mp h2.symm⟩
    · rintro ⟨h1, h2⟩
      exact ⟨((toUpper_eq_C_iff a).mpr h1).symm, ((toUpper_eq_hash_iff b).mpr h2).symm⟩

lemma isSuffixOf_cons_cons {x a b : Char} {t : List Char}
    (h : [x].isSuffixOf (a :: b :: t) = true) : [x].isSuffixOf (b :: t) = true := by
  rw [List.isSuffixOf_iff_suffix] at h ⊢
  obtain ⟨s, hs⟩ := h
  rcases s with _ | ⟨a', s'⟩
  · simp at hs
  · rw [List.cons_append] at hs
    injection hs with h1 h2
    exact ⟨s', h2⟩

/-! ### Claim C4: passthrough validation -/

/-- C4: `strip_passthrough` succeeds iff the input, case-insensitively,
starts with `C#` and ends with `!`; on success the payload is the input
with its first character removed, so it starts with `#` and still ends
with `!`; on any other input it returns an error. -/
theorem c4_strip_passthrough (cmd : List Char) :
    ((strip_passthrough cmd).isOk = true ↔
      csPrefixCI cmd = true ∧ ['!'].isSuffixOf cmd = true) ∧
    (∀ p, strip_passthrough cmd = Except.ok p →
      p = cmd.tail ∧ ['#'].isPrefixOf p = true ∧ ['!'].isSuffixOf p = true) := by
  by_cases hA : ['C', '#'].isPrefixOf (pyUpper cmd) = true
  · by_cases hB : ['!'].isSuffixOf cmd = true
    · have hok : strip_passthrough cmd = Except.ok cmd.tail := by
        unfold strip_passthrough
        rw [if_neg]
        simp [hA, hB]
      have hcs := (upper_startswith_iff cmd).mp hA
      refine ⟨by simp [hok, Except.isOk, Except.toBool, hcs, hB], fun p hp => ?_⟩
      rw [hok] at hp
      injection hp with hp
      subst hp
      rcases cmd with _ | ⟨a, _ | ⟨b, t⟩⟩
      · exact absurd hcs (by decide)
      · exact absurd hcs (by simp [csPrefixCI])
      · have hb : b = '#' := by
          simp only [csPrefixCI, Bool.and_eq_true, decide_eq_true_eq] at hcs
          exact hcs.2
        subst hb
        exact ⟨rfl, by simp [List.isPrefixOf], isSuffixOf_cons_cons hB⟩
    · have herr : strip_passthrough cmd = Except.error invalid_cmd_msg := by
        unfold strip_passthrough
        rw [if_pos]
        simp [hB]
      refine ⟨by simp [herr, Except.isOk, Except.toBool, hB], fun p hp => ?_⟩
      rw [herr] at hp
      exact Except.noConfusion hp
  · have herr : strip_passthrough cmd = Except.error invalid_cmd_msg := by
      unfold strip_passthrough
      rw [if_pos]
      simp [hA]
    have hcs : ¬ csPrefixCI cmd = true := fun h =>
      hA ((upper_startswith_iff cmd).mpr h)
    refine ⟨by simp [herr, Except.isOk, Except.toBool, hcs], fun p hp => ?_⟩
    rw [herr] at hp
    exact Except.noConfusion hp

/-- Witness for C4: `c#000prad1500!` is accepted (case-insensitively) and
its payload is the tail `#000prad1500!`, which starts with `#` and ends
with `!`; and `X#000!` is rejected. -/
theorem c4_strip_passthrough_witness :
    ((strip_passthrough ("c#000prad1500!".data)).isOk = true) ∧
    ("c#000prad1500!".data.tail = "#000prad1500!".data) ∧
    (∀ p, strip_passthrough ("c#000prad1500!".data) = Except.ok p →
      p = "c#000prad1500!".data.tail) ∧
    ((strip_passthrough ("X#000!".data)).isOk = false) := by
  refine ⟨?_, by decide, fun p hp => ((c4_strip_passthrough _).2 p hp).1, ?_⟩
  · exact (c4_strip_passthrough ("c#000prad1500!".data)).1.mpr ⟨by decide, by decide⟩
  · have h := (c4_strip_passthrough ("X#000!".data)).1
    rcases hv : (strip_passthrough ("X#000!".data)).isOk with _ | _
    · rfl
    · exact absurd ((h.mp hv).1) (by decide)

/-! ### Splitting and the segment loop -/

lemma splitOnChar_ne_nil (sep : Char) (s : List Char) : splitOnChar sep s ≠ [] := by
  induction s with
  | nil => simp [splitOnChar]
  | cons c cs ih =>
    unfold splitOnChar
    by_cases hc : c = sep
    · simp [hc]
    · rw [if_neg hc]
      rcases hsp : splitOnChar sep cs with _ | ⟨g, gs⟩
      · simp
      · simp

lemma splitOnChar_append (sep : Char) (xs ys : List Char) :
    splitOnChar sep (xs ++ sep :: ys) =
      splitOnChar sep xs ++ splitOnChar sep ys := by
  induction xs with
  | nil =>
    show splitOnChar sep (sep :: ys) = splitOnChar sep [] ++ splitOnChar sep ys
    simp [splitOnChar]
  | cons c cs ih =>
    show splitOnChar sep (c :: (cs ++ sep :: ys)) =
      splitOnChar sep (c :: cs) ++ splitOnChar sep ys
    by_cases hc : c = sep
    · simp only [splitOnChar, hc, if_true, ih, List.cons_append]
    · simp only [splitOnChar, hc, if_false, ih]
      rcases hcs : splitOnChar sep cs with _ | ⟨g, gs⟩
      · exact absurd hcs (splitOnChar_ne_nil sep cs)
      · simp

/-- The outcome of one nonempty stripped segment in the loop of
`process_command`: either the frame sent for it or a skip diagnostic. -/
def segOutcome (d : Int) (s : List Char) : Output :=
  match parse_segment d s with
  | some (servo_id, pulse, time_ms) =>
    Output.sent (send_servo_move servo_id pulse time_ms)
  | none => Output.skipped s

/-- The segment loop is exactly: strip every segment, drop the empty ones,
and map each remaining segment independently to its outcome, preserving
order. -/
lemma processSegments_eq_map (d : Int) (segs : List (List Char)) :
    processSegments d segs =
      ((segs.map pyStrip).filter (fun s => !s.isEmpty)).map (segOutcome d) := by
  induction segs with
  | nil => rfl
  | cons s rest ih =>
    simp only [processSegments, List.map_cons, List.filter_cons]
    by_cases h : pyStrip s = []
    · simp [h, ih]
    · have hne : (!(pyStrip s).isEmpty) = true := by
        simp [List.isEmpty_iff, h]
      rw [if_neg h, hne]
      rcases hps : parse_segment d (pyStrip s) with _ | ⟨⟨i, pv, tv⟩⟩ <;>
        simp [segOutcome, hps, ih]

lemma ct_prefix_shape {l : List Char} (h : ['c', 't'].isPrefixOf l = true) :
    ∃ r, l = 'c' :: 't' :: r := by
  rcases l with _ | ⟨a, _ | ⟨b, r⟩⟩
  · exact absurd h (by decide)
  · exact absurd h (by simp [List.isPrefixOf])
  · simp only [List.isPrefixOf, Bool.and_eq_true, beq_iff_eq] at h
    obtain ⟨rfl, rfl, -⟩ := h
    exact ⟨r, rfl⟩

/-! ### Claim C10: failed passthrough performs no transport action -/

/-- C10: when passthrough validation fails, `send_passthrough` returns the
error with an empty transport trace — no write, no settle delay, no read —
and the passthrough branch of `process_command` leaves the session default
unchanged. -/
theorem c10_no_transport_on_error (cmd line : List Char) (d : Int) :
    (∀ e, strip_passthrough cmd = Except.error e →
      send_passthrough cmd = (Except.error e, ([] : List IOEvent))) ∧
    (csPrefixCI (pyStrip line) = true → (process_command d line).1 = d) := by
  constructor
  · intro e he
    unfold send_passthrough
    rw [he]
  · intro h
    have hne : pyStrip line ≠ [] := by
      intro h0
      rw [h0] at h
      exact absurd h (by decide)
    simp only [process_command]
    rw [if_neg hne, if_pos ((upper_startswith_iff _).mpr h)]

/-- Witness for C10: `C#000` (missing terminator) is rejected with an empty
transport trace, and processing it leaves the default unchanged. -/
theorem c10_no_transport_on_error_witness :
    send_passthrough ("C#000".data) = (Except.error invalid_cmd_msg, []) ∧
    (process_command 1000 ("C#000".data)).1 = 1000 :=
  ⟨(c10_no_transport_on_error ("C#000".data) ("C#000".data) 1000).1
      invalid_cmd_msg (by decide),
    (c10_no_transport_on_error ("C#000".data) ("C#000".data) 1000).2 (by decide)⟩

/-! ### Claim C5: the segment branch -/

/-- C5: for a line that reaches the segment branch, `process_command`
splits on `;`, strips each segment, discards the empty ones, and maps every
remaining segment independently — in input order — to either a sent move or
a skip diagnostic; a malformed segment never prevents later segments from
being processed, and the session default is unchanged. -/
theorem c5_segment_branch (d : Int) (line : List Char)
    (h0 : pyStrip line ≠ [])
    (h1 : csPrefixCI (pyStrip line) = false)
    (h2 : ['c', 't'].isPrefixOf (pyStrip line) = false) :
    process_command d line =
      (d, (((splitOnChar ';' (pyStrip line)).map pyStrip).filter
        (fun s => !s.isEmpty)).map (segOutcome d)) := by
  have hA : ¬ (['C', '#'].isPrefixOf (pyUpper (pyStrip line)) = true) := by
    rw [upper_startswith_iff]
    simp [h1]
  simp only [process_command]
  rw [if_neg h0, if_neg hA, if_neg (by simp [h2]), processSegments_eq_map]

/-- Witness for C5 on the spec's example `0,bad;1,2000`: one skip
diagnostic, then one sent move — the malformed first segment does not
suppress the second. -/
theorem c5_segment_branch_witness :
    process_command 1000 ("0,bad;1,2000".data) =
      (1000, [Output.skipped ("0,bad".data),
        Output.sent ("#001P2000T1000!".data)]) :=
  (c5_segment_branch 1000 ("0,bad;1,2000".data) (by decide) (by decide)
    (by decide)).trans (by decide)

/-! ### Claim C7: branch priority of the line classifier -/

/-- C7: `process_command` classifies a (stripped, nonempty) line by the
first matching branch, in order: case-insensitive `C#` prefix → handled
solely as passthrough; else literal case-sensitive `ct` prefix → handled
solely as a set-default attempt, yielding a set-default on a positive
parsed value and a diagnostic otherwise; only otherwise is the line split
on `;` into move segments.  The three conditions are mutually exclusive
and exhaustive, so exactly one branch applies. -/
theorem c7_branch_priority (d : Int) (line : List Char)
    (h0 : pyStrip line ≠ []) :
    (csPrefixCI (pyStrip line) = true →
      process_command d line =
        (d, [Output.passthrough (strip_passthrough (pyStrip line))])) ∧
    (csPrefixCI (pyStrip line) = false →
      ['c', 't'].isPrefixOf (pyStrip line) = true →
      ((∃ v : Int, 0 < v ∧ pyInt ((pyStrip line).drop 2) = some v ∧
          process_command d line = (v, [Output.setDefault v])) ∨
        process_command d line = (d, [Output.invalidCt]))) ∧
    (csPrefixCI (pyStrip line) = false →
      ['c', 't'].isPrefixOf (pyStrip line) = false →
      process_command d line =
        (d, processSegments d (splitOnChar ';' (pyStrip line)))) := by
  refine ⟨fun hcs => ?_, fun hcs hct => ?_, fun hcs hct => ?_⟩
  · simp only [process_command]
    rw [if_neg h0, if_pos ((upper_startswith_iff _).mpr hcs)]
  · have hA : ¬ (['C', '#'].isPrefixOf (pyUpper (pyStrip line)) = true) := by
      rw [upper_startswith_iff]
      simp [hcs]
    have hpc : process_command d line =
        (match pyInt ((pyStrip line).drop 2) with
          | some new_time =>
            if new_time > 0 then (new_time, [Output.setDefault new_time])
            else (d, [Output.invalidCt])
          | none => (d, [Output.invalidCt])) := by
      simp only [process_command]
      rw [if_neg h0, if_neg hA, if_pos (by simp [hct])]
    rcases hpi : pyInt ((pyStrip line).drop 2) with _ | v
    · right
      rw [hpc, hpi]
    · by_cases hv : v > 0
      · left
        refine ⟨v, hv, rfl, ?_⟩
        rw [hpc, hpi]
        exact if_pos hv
      · right
        rw [hpc, hpi]
        exact if_neg hv
  · have hA : ¬ (['C', '#'].isPrefixOf (pyUpper (pyStrip line)) = true) := by
      rw [upper_startswith_iff]
      simp [hcs]
    simp only [process_command]
    rw [if_neg h0, if_neg hA, if_neg (by simp [hct])]

/-- Witness for C7: a passthrough line, a `ct` line and a move line each
take exactly their branch. -/
theorem c7_branch_priority_witness :
    process_command 1000 ("c#000!".data) =
      (1000, [Output.passthrough (strip_passthrough ("c#000!".data))]) ∧
    ((∃ v : Int, 0 < v ∧ pyInt (("ct500".data).drop 2) = some v ∧
        process_command 1000 ("ct500".data) = (v, [Output.setDefault v])) ∨
      process_command 1000 ("ct500".data) = (1000, [Output.invalidCt])) ∧
    process_command 1000 ("7,1500".data) =
      (1000, processSegments 1000 (splitOnChar ';' ("7,1500".data))) := by
  refine ⟨?_, ?_, ?_⟩
  · exact ((c7_branch_priority 1000 ("c#000!".data) (by decide)).1 (by decide)).trans
      (by decide)
  · exact (c7_branch_priority 1000 ("ct500".data) (by decide)).2.1 (by decide) (by decide)
  · exact ((c7_branch_priority 1000 ("7,1500".data) (by decide)).2.2 (by decide)
      (by decide)).trans (by decide)

/-! ### Claim C6: the session default duration -/

/-- C6: the session default starts at 1000; a `ct` line replaces it exactly
when the remainder parses as a positive integer, otherwise it is left
unchanged with a diagnostic; and a two-field move segment picks up the
current default — concretely, after `ct500` the line `2,1800` is sent with
duration 500, while `ct-5` and `ct0` leave the default at its value and
yield a diagnostic. -/
theorem c6_default_duration (d : Int) (line : List Char)
    (h0 : pyStrip line ≠ [])
    (hct : ['c', 't'].isPrefixOf (pyStrip line) = true) :
    default_time_ms_init = 1000 ∧
    (∀ v : Int, pyInt ((pyStrip line).drop 2) = some v → 0 < v →
      process_command d line = (v, [Output.setDefault v])) ∧
    (∀ v : Int, pyInt ((pyStrip line).drop 2) = some v → v ≤ 0 →
      process_command d line = (d, [Output.invalidCt])) ∧
    (pyInt ((pyStrip line).drop 2) = none →
      process_command d line = (d, [Output.invalidCt])) ∧
    (∀ d' : Int, 0 < d' →
      process_command d' ("2,1800".data) =
        (d', [Output.sent (send_servo_move 2 1800 d')])) ∧
    process_command default_time_ms_init ("ct500".data) =
      (500, [Output.setDefault 500]) ∧
    process_command 500 ("2,1800".data) =
      (500, [Output.sent ("#002P1800T0500!".data)]) ∧
    process_command default_time_ms_init ("ct-5".data) =
      (default_time_ms_init, [Output.invalidCt]) ∧
    process_command default_time_ms_init ("ct0".data) =
      (default_time_ms_init, [Output.invalidCt]) := by
  obtain ⟨r, hr⟩ := ct_prefix_shape hct
  have hA : ¬ (['C', '#'].isPrefixOf (pyUpper (pyStrip line)) = true) := by
    rw [upper_startswith_iff, hr]
    simp [csPrefixCI]
  have hpc : process_command d line =
      (match pyInt ((pyStrip line).drop 2) with
        | some new_time =>
          if new_time > 0 then (new_time, [Output.setDefault new_time])
          else (d, [Output.invalidCt])
        | none => (d, [Output.invalidCt])) := by
    simp only [process_command]
    rw [if_neg h0, if_neg hA, if_pos (by simp [hct])]
  refine ⟨rfl, fun v hv hpos => ?_, fun v hv hnonpos => ?_, fun hnone => ?_,
    fun d' hd' => ?_, by decide, by decide, by decide, by decide⟩
  · rw [hpc, hv]
    exact if_pos hpos
  · rw [hpc, hv]
    exact if_neg (by omega)
  · rw [hpc, hnone]
  · have hps : parse_segment d' ("2,1800".data) = some (2, 1800, d') := by
      show parse_parts d' (splitOnChar ',' ("2,1800".data)) = some (2, 1800, d')
      rw [show splitOnChar ',' ("2,1800".data) = ["2".data, "1800".data] from by decide]
      simp only [parse_parts,
        show pyInt ("2".data) = some 2 from by decide,
        show pyInt ("1800".data) = some 1800 from by decide]
      rw [if_neg (by omega)]
    have hseg : processSegments d' (splitOnChar ';' ("2,1800".data)) =
        [Output.sent (send_servo_move 2 1800 d')] := by
      rw [show splitOnChar ';' ("2,1800".data) = [("2,1800".data)] from by decide]
      simp only [processSegments]
      rw [if_neg (by decide),
        show pyStrip ("2,1800".data) = "2,1800".data from by decide, hps]
    simp only [process_command]
    rw [show pyStrip ("2,1800".data) = "2,1800".data from by decide,
      if_neg (by decide), if_neg (by decide), if_neg (by decide), hseg]

/-- Witness for C6 at `line = ct500`, `d = 1000`. -/
theorem c6_default_duration_witness :
    process_command 1000 ("ct500".data) = (500, [Output.setDefault 500]) :=
  (c6_default_duration 1000 ("ct500".data) (by decide) (by decide)).2.1
    500 (by decide) (by decide)

/-! ### Claim C8: the end-to-end upper pulse clamp -/

/-- C8: the input line `5,9999,1` passes parse-time validation (pulse 9999
is only checked to be positive there), the encode stage clamps the pulse to
2500, and the frame emitted is exactly `#005P2500T0001!` — so the
encode-stage upper pulse clamp is reachable through the parser. -/
theorem c8_end_to_end (d : Int) :
    parse_segment d ("5,9999,1".data) = some (5, 9999, 1) ∧
    send_servo_move 5 9999 1 = ("#005P2500T0001!".data) ∧
    process_command d ("5,9999,1".data) = (d, [Output.sent ("#005P2500T0001!".data)]) := by
  have hps : parse_segment d ("5,9999,1".data) = some (5, 9999, 1) := by
    show parse_parts d (splitOnChar ',' ("5,9999,1".data)) = some (5, 9999, 1)
    rw [show splitOnChar ',' ("5,9999,1".data) =
      ["5".data, "9999".data, "1".data] from by decide]
    simp only [parse_parts,
      show pyInt ("5".data) = some 5 from by decide,
      show pyInt ("9999".data) = some 9999 from by decide,
      show pyInt ("1".data) = some 1 from by decide]
    rw [if_neg (by omega)]
  have hfr : send_servo_move 5 9999 1 = ("#005P2500T0001!".data) := by decide
  refine ⟨hps, hfr, ?_⟩
  simp only [process_command]
  rw [show pyStrip ("5,9999,1".data) = "5,9999,1".data from by decide,
    if_neg (by decide), if_neg (by decide), if_neg (by decide),
    show splitOnChar ';' ("5,9999,1".data) = [("5,9999,1".data)] from by decide]
  simp only [processSegments]
  rw [if_neg (by decide),
    show pyStrip ("5,9999,1".data) = "5,9999,1".data from by decide, hps]
  show (d, [Output.sent (send_servo_move 5 9999 1)]) =
    (d, [Output.sent ("#005P2500T0001!".data)])
  rw [hfr]

/-! ### Claim C9: fields beyond the third are ignored -/

lemma parse_parts_first_three (d : Int) (p0 p1 p2 : List Char)
    (r r' : List (List Char)) :
    parse_parts d (p0 :: p1 :: p2 :: r) = parse_parts d (p0 :: p1 :: p2 :: r') := rfl

/-- C9: `parse_segment` ignores every comma-separated field beyond the
third — if a segment with at least three fields is accepted, appending
a comma and any extra text (even non-integer fields) yields the same
accepted triple. -/
theorem c9_extra_fields (d : Int) (seg extra : List Char) (r : Int × Int × Int)
    (hlen : 3 ≤ (splitOnChar ',' seg).length)
    (h : parse_segment d seg = some r) :
    parse_segment d (seg ++ ',' :: extra) = some r := by
  rcases hsp : splitOnChar ',' seg with _ | ⟨p0, _ | ⟨p1, _ | ⟨p2, rest⟩⟩⟩ <;>
    rw [hsp] at hlen <;> try simp at hlen
  show parse_parts d (splitOnChar ',' (seg ++ ',' :: extra)) = some r
  rw [splitOnChar_append, hsp]
  show parse_parts d (p0 :: p1 :: p2 :: (rest ++ splitOnChar ',' extra)) = some r
  rw [parse_parts_first_three d p0 p1 p2 (rest ++ splitOnChar ',' extra) rest]
  have h' : parse_parts d (p0 :: p1 :: p2 :: rest) = some r := by
    rw [← hsp]
    exact h
  exact h'

/-- Witness for C9 on `0,1500,1000` with extra field `junk`. -/
theorem c9_extra_fields_witness :
    parse_segment 1000 ("0,1500,1000,junk".data) = some (0, 1500, 1000) := by
  have h := c9_extra_fields 1000 ("0,1500,1000".data) ("junk".data)
    (0, 1500, 1000) (by decide) (by decide)
  exact h

end BusServo
